import Mathlib

/-!
Verification development for the `ginipre` SAT preprocessor
(`Preprocessor/Preprocessor/Preprocessor.go`).

The Go source under scrutiny defines the `Problem` structure and the
functions `updateStatus`, `addUnit`, `Simplify2`, `Preprocess`, `SelfSub`
and `Subsumption`.  Those are embedded below as executable Lean functions,
mirroring the Go control flow statement by statement (swap-with-last
removals, in-place clause mutation, early returns, restart flags).

The literal/clause capability layer (`Lit`, `Var`, `Clause` and the methods
`IsPositive`, `Var`, `Negation`, `Len`, `Get`, `Set`, `Shrink`, `First`,
`Simplify`, `SelfSubsumes`, `Generate`, `Subsumes`) is part of the same Go
package but its source file is not in the repository snapshot; those
definitions are modelled from the specification (each such definition is
marked `Modelled from the spec:` in its doc comment).

Go's runtime panic on an out-of-range slice index is represented by the
result `Res.oob`; loops whose termination is not structurally evident are
given an explicit fuel parameter (`Res.fuelOut` marks exhaustion, which is
unreachable for sufficient fuel and never occurs in the concrete runs
below).  Go `log.Printf` calls are pure diagnostics and are dropped.
-/

namespace Ginipre

/-- A variable is an integer identifier in `[0, NbVars)`. -/
abbrev Var := Nat

/-- Modelled from the spec: a literal is a variable plus a polarity, with a
total ordering/index suitable for direct array indexing (the occurrence
array `occurs` has size `2*NbVars` and is indexed by the literal value
itself in the source, line 125).  Variable `v` yields the positive literal
`2*v` and the negated literal `2*v+1`. -/
abbrev Lit := Nat

/-- Modelled from the spec: the positive literal of a variable (`v.Lit()`). -/
def Var.toLit (v : Var) : Lit := 2 * v

/-- Modelled from the spec: the variable of a literal (`lit.Var()`). -/
def Lit.var (l : Lit) : Var := l / 2

/-- Modelled from the spec: polarity test (`lit.IsPositive()`). -/
def Lit.isPositive (l : Lit) : Bool := l % 2 == 0

/-- Modelled from the spec: the negation operation (`lit.Negation()`). -/
def Lit.neg (l : Lit) : Lit := if l % 2 == 0 then l + 1 else l - 1

/-- A clause stores a sequence of literals (length, indexed get/set,
truncate-to-length and first-literal accessor are the list operations). -/
abbrev Clause := List Lit

/-- Tri-state problem status (`Status` in the source). -/
inductive Status where
  | undetermined
  | sat
  | unsat
deriving DecidableEq

/-- The source `Problem` structure: variable count, clause database,
status, forced-literal log and the tri-state assignment array (`Model`:
`0` unbound, `1` bound true, `-1` bound false).  The optimisation fields
`minLits`/`minWeights` exist in the source but are never touched by the
preprocessing code. -/
structure Problem where
  nbVars : Nat
  clauses : List Clause
  status : Status
  units : List Lit
  model : List Int
  minLits : List Lit := []
  minWeights : List Int := []
deriving DecidableEq

/-- Result of an embedded operation: normal result, out-of-range slice
index (a Go runtime panic), or fuel exhaustion of the embedding. -/
inductive Res (α : Type) where
  | ok (a : α)
  | oob
  | fuelOut
deriving DecidableEq

/-- Modelled from the spec: tautology test used by `Clause.Simplify` —
a clause containing a literal and its negation is trivially satisfiable. -/
def Clause.isTautology (c : Clause) : Bool :=
  c.any (fun l => c.contains l.neg)

/-- Modelled from the spec: *self-simplify* (`newC.Simplify()`): detect and
collapse a clause that is trivially satisfiable, returning whether it was
eliminated.  `none` plays the role of the `true` return value (clause
eliminated as a tautology); otherwise the clause is collapsed by removing
duplicate literals (the spec's Scenario C collapses `(x2 ∨ x2)` to the
unit `(x2)`). -/
def Clause.simplify (c : Clause) : Option Clause :=
  if c.isTautology then none else some c.dedup

/-- Modelled from the spec: the *self-subsumption test*
(`a.SelfSubsumes(b)` with the pivot variable `v` of the enclosing loop):
given two clauses and a pivot variable, decide whether resolving on that
variable would let one clause be absorbed into a shrunken form of the
other, i.e. the resolvent subsumes `b` shorn of its pivot literal. -/
def Clause.selfSubsumes (v : Var) (a b : Clause) : Bool :=
  let p := 2 * v
  let n := 2 * v + 1
  (a.contains p && b.contains n &&
    (a.filter (fun l => l != p)).all (fun l => (b.filter (fun l' => l' != n)).contains l))
  ||
  (a.contains n && b.contains p &&
    (a.filter (fun l => l != n)).all (fun l => (b.filter (fun l' => l' != p)).contains l))

/-- Modelled from the spec: *resolve* (`c1.Generate(c2, v)`): produce the
resolvent clause of two clauses on a pivot variable. -/
def Clause.generate (c1 c2 : Clause) (v : Var) : Clause :=
  c1.filter (fun l => l.var != v) ++ c2.filter (fun l => l.var != v)

/-- Modelled from the spec: the *subsumption test* (`a.Subsumes(b)`):
decide whether this clause's literals are a subset of another's. -/
def Clause.subsumes (a b : Clause) : Bool :=
  a.all (fun l => b.contains l)

/-! ## `updateStatus` and `addUnit` (source lines 39–61) -/

/-- Source method `(pb *Problem) updateStatus(nbClauses int)`: truncate the clause
database to `nbClauses` and move `Undetermined` to `Sat` when the database
became empty. -/
def updateStatus (pb : Problem) (nbClauses : Nat) : Problem :=
  { pb with
    clauses := pb.clauses.take nbClauses
    status := if pb.status = .undetermined ∧ nbClauses = 0 then .sat else pb.status }

/-- Source method `(pb *Problem) addUnit(lit Lit)` (source lines 46–61), embedded
verbatim: a conflicting binding sets `Status = Unsat` and returns without
further mutation; otherwise the variable is bound and the literal is
appended to `Units` unconditionally. -/
def addUnit (pb : Problem) (lit : Lit) : Problem :=
  if lit.isPositive then
    if pb.model.getD lit.var 0 = -1 then { pb with status := .unsat }
    else { pb with
            model := pb.model.set lit.var 1
            units := pb.units ++ [lit] }
  else
    if pb.model.getD lit.var 0 = 1 then { pb with status := .unsat }
    else { pb with
            model := pb.model.set lit.var (-1)
            units := pb.units ++ [lit] }

/-! ## `Simplify2` (source lines 64–110)

The literal scan of a single clause (source lines 74–86) walks index `j`
upward while the active length `nbLits` shrinks; the recursion is
structural on the gap `nbLits - j` (one of the two strictly shrinks each
step).  `scanGo model c j gap` corresponds to the loop state
`nbLits = j + gap`; it returns the mutated clause, the final `nbLits` and
the `clauseSat` flag. -/
def scanGo (model : List Int) (c : Clause) (j : Nat) : Nat → Clause × Nat × Bool
  | 0 => (c, j, false)
  | gap + 1 =>
    let lit : Lit := c.getD j 0
    let mv := model.getD lit.var 0
    if mv = 0 then
      scanGo model c (j + 1) gap
    else if (mv == 1) == lit.isPositive then
      (c, j + gap + 1, true)
    else
      scanGo model (c.set j (c.getD (j + gap) 0)) j gap

/-- Result of the clause sweep of `Simplify2`: `early` is one of the two
`return` statements inside the loop (the clause database is left at full
length, untruncated), `full` is normal loop exit with the final active
clause count and the restart flag. -/
inductive SweepRes where
  | early (p : Problem)
  | full (p : Problem) (nb : Nat) (restart : Bool)

/-- One inner pass of `Simplify2` over the active clause range (source
lines 69–107), starting at index `i` with `nb = i + gap` active clauses.
Structural recursion on the gap: a kept clause advances `i`, a removed
clause shrinks `nb`. -/
def sweepClauses (pb : Problem) (i : Nat) (restart : Bool) : Nat → SweepRes
  | 0 => .full pb i restart
  | gap + 1 =>
    let nb := i + gap + 1
    let c := pb.clauses.getD i []
    let r := scanGo pb.model c 0 c.length
    let c' := r.1
    let nbLits := r.2.1
    let clauseSat := r.2.2
    if clauseSat then
      -- nbClauses--; pb.Clauses[i] = pb.Clauses[nbClauses]
      let cs1 := pb.clauses.set i c'
      let cs2 := cs1.set i (cs1.getD (nb - 1) [])
      sweepClauses { pb with clauses := cs2 } i restart gap
    else if nbLits = 0 then
      -- pb.Status = Unsat; return
      .early { pb with clauses := pb.clauses.set i c', status := .unsat }
    else if nbLits = 1 then
      -- pb.addUnit(c.First()); if pb.Status == Unsat { return }
      let pb1 := addUnit { pb with clauses := pb.clauses.set i c' } (c'.getD 0 0)
      if pb1.status = .unsat then
        .early pb1
      else
        -- nbClauses--; pb.Clauses[i] = pb.Clauses[nbClauses]; restart = true
        let cs2 := pb1.clauses.set i (pb1.clauses.getD (nb - 1) [])
        sweepClauses { pb1 with clauses := cs2 } i true gap
    else
      -- if c.Len() != nbLits { c.Shrink(nbLits) }; i++
      let c2 := if c'.length ≠ nbLits then c'.take nbLits else c'
      sweepClauses { pb with clauses := pb.clauses.set i c2 } (i + 1) restart gap

/-- The outer restart loop of `Simplify2` (source lines 67–108): rerun the
sweep while the restart flag is set, then `updateStatus`.  Each restarted
sweep strictly removed at least one clause, so `nb + 1` sweeps always
suffice; the fuel only makes the recursion structural. -/
def simplify2Loop (nb : Nat) (pb : Problem) : Nat → Res Problem
  | 0 => .fuelOut
  | fuel + 1 =>
    match sweepClauses pb 0 false nb with
    | .early p => .ok p
    | .full p nb' restart =>
      if restart then simplify2Loop nb' p fuel
      else .ok (updateStatus p nb')

/-- Source method `(pb *Problem) Simplify2()` (source lines 64–110). -/
def simplify2 (pb : Problem) : Res Problem :=
  simplify2Loop pb.clauses.length pb (pb.clauses.length + 1)

/-! ## The occurrence index (source lines 122–127, rebuilt at 218–223,
283–288, 348–353, 381–386, 485–490) -/

/-- Build the occurrence index: an array of size `2*NbVars`, mapping each
literal value to the list of clause positions containing it, one entry per
literal occurrence (source lines 122–127). -/
def buildOccurs (nbVars : Nat) (clauses : List Clause) : List (List Nat) :=
  clauses.enum.foldl
    (fun occ ic =>
      ic.2.foldl (fun occ2 l => occ2.set l (occ2.getD l [] ++ [ic.1])) occ)
    (List.replicate (2 * nbVars) ([] : List Nat))

/-- Total number of stored literals; each modifying iteration of
`SelfSub`'s fixpoint loop strictly decreases it, so it bounds the number
of iterations. -/
def totalLits (clauses : List Clause) : Nat :=
  (clauses.map List.length).sum

/-! ## `SelfSub` (source lines 120–376) -/

/-- The candidate pair list examined for variable `i` by `SelfSub`
(source lines 135–149): nothing when the variable is bound; otherwise,
under the cost-bounding guard
`(nbLit < 10 || nbLit2 < 10) && (nbLit != 0 || nbLit2 != 0)`,
all pairs of `occurs[lit] × occurs[lit.Negation()]` in loop order. -/
def varCandidatePairs (occurs : List (List Nat)) (model : List Int) (i : Nat) :
    List (Nat × Nat) :=
  if model.getD i 0 ≠ 0 then []
  else
    let lit : Lit := 2 * i
    let nbLit := (occurs.getD lit []).length
    let nbLit2 := (occurs.getD (2 * i + 1) []).length
    if (nbLit < 10 ∨ nbLit2 < 10) ∧ (nbLit ≠ 0 ∨ nbLit2 ≠ 0) then
      (occurs.getD lit []).flatMap (fun i1 => (occurs.getD (2 * i + 1) []).map (fun i2 => (i1, i2)))
    else []

/-- Swap-with-last removal of the clause at position `idx`
(`pb.Clauses[idx] = pb.Clauses[len-1]; pb.Clauses = pb.Clauses[:len-1]`).
`none` is the Go runtime panic on an out-of-range index. -/
def removeSwap (cs : List Clause) (idx : Nat) : Option (List Clause) :=
  if idx < cs.length then
    some ((cs.set idx (cs.getD (cs.length - 1) [])).take (cs.length - 1))
  else none

/-- The two successive swap-with-last removals of the both-directions
branch of `SelfSub` (source lines 213–216). -/
def bothRemove (cs : List Clause) (idx1 idx2 : Nat) : Option (List Clause) :=
  (removeSwap cs idx1).bind (fun cs' => removeSwap cs' idx2)

/-- Resolvent classification shared verbatim by the three branches of
`SelfSub` (source lines 166–207, 234–275, 299–340): skip a tautology;
an empty resolvent sets `Status = Unsat` and returns from `SelfSub`
(the `Except.error` case); a unit resolvent is bound inline (conflict
also returns), with duplicate suppression against `Units`; a longer
resolvent is appended to the clause database. -/
def handleResolvent (pb : Problem) (newC : Clause) : Except Problem Problem :=
  match newC.simplify with
  | none => .ok pb
  | some c =>
    match c with
    | [] => .error { pb with status := .unsat }
    | [lit2] =>
      if lit2.isPositive then
        if pb.model.getD lit2.var 0 = -1 then .error { pb with status := .unsat }
        else if lit2 ∈ pb.units then .ok { pb with model := pb.model.set lit2.var 1 }
        else .ok { pb with model := pb.model.set lit2.var 1, units := pb.units ++ [lit2] }
      else
        if pb.model.getD lit2.var 0 = 1 then .error { pb with status := .unsat }
        else if lit2 ∈ pb.units then .ok { pb with model := pb.model.set lit2.var (-1) }
        else .ok { pb with model := pb.model.set lit2.var (-1), units := pb.units ++ [lit2] }
    | _ => .ok { pb with clauses := pb.clauses ++ [c] }

/-- Outcome of testing one candidate pair in `SelfSub`. -/
inductive PairOutcome where
  | noChange
  | changed (p : Problem)
  | unsatStop (p : Problem)
  | oobStop

/-- Test one candidate pair `(idx1, idx2)` for pivot variable `v`
(source lines 150–360): the both-directions branch removes both clauses,
`canP` alone removes the negative clause, `canN` alone removes the
positive clause; every branch ends with a rebuild of the occurrence index
(done by the caller on `changed`). -/
def processPair (pb : Problem) (occurs : List (List Nat)) (v : Var)
    (idx1 idx2 : Nat) : PairOutcome :=
  let c1 := pb.clauses.getD idx1 []
  let c2 := pb.clauses.getD idx2 []
  let canP := Clause.selfSubsumes v c1 c2
  let canN := Clause.selfSubsumes v c2 c1
  if canP && canN then
    match handleResolvent pb (Clause.generate c1 c2 v) with
    | .error p => .unsatStop p
    | .ok p =>
      if 0 < (occurs.getD (2 * v + 1) []).length then
        match bothRemove p.clauses idx1 idx2 with
        | some cs => .changed { p with clauses := cs }
        | none => .oobStop
      else .noChange
  else if canP then
    match handleResolvent pb (Clause.generate c1 c2 v) with
    | .error p => .unsatStop p
    | .ok p =>
      if 0 < (occurs.getD (2 * v + 1) []).length then
        match removeSwap p.clauses idx2 with
        | some cs => .changed { p with clauses := cs }
        | none => .oobStop
      else .noChange
  else if canN then
    match handleResolvent pb (Clause.generate c2 c1 v) with
    | .error p => .unsatStop p
    | .ok p =>
      if 0 < (occurs.getD (2 * v + 1) []).length then
        match removeSwap p.clauses idx1 with
        | some cs => .changed { p with clauses := cs }
        | none => .oobStop
      else .noChange
  else .noChange

/-- Scan the candidate pairs of one variable in order; the first pair
that fires ends the scan (the `break` statements at source lines 226,
291, 356, 363–365). -/
def processPairs (pb : Problem) (occurs : List (List Nat)) (v : Var) :
    List (Nat × Nat) → PairOutcome
  | [] => .noChange
  | pr :: rest =>
    match processPair pb occurs v pr.1 pr.2 with
    | .noChange => processPairs pb occurs v rest
    | r => r

/-- Outcome of one full sweep of the variable loop of `SelfSub`. -/
inductive VarSweepRes where
  | done (p : Problem) (occurs : List (List Nat)) (modified : Bool)
  | stopped (p : Problem)
  | oob

/-- One sweep of the variable loop (source lines 135–370): each variable's
candidate pairs are scanned; on a modification the occurrence index is
rebuilt and the sweep continues with the next variable. -/
def sweepVars (pb : Problem) (occurs : List (List Nat)) (modified : Bool) :
    List Nat → VarSweepRes
  | [] => .done pb occurs modified
  | i :: rest =>
    match processPairs pb occurs i (varCandidatePairs occurs pb.model i) with
    | .noChange => sweepVars pb occurs modified rest
    | .changed p => sweepVars p (buildOccurs p.nbVars p.clauses) true rest
    | .unsatStop p => .stopped p
    | .oobStop => .oob

/-- The source `for modified` fixpoint loop of `SelfSub` (source lines 131–371).
Each iteration that reports a modification strictly decreased the total
literal count, so `totalLits + 2` iterations always suffice. -/
def selfSubLoop (pb : Problem) (occurs : List (List Nat)) (neverModified : Bool) :
    Nat → Res (Problem × Bool)
  | 0 => .fuelOut
  | fuel + 1 =>
    match sweepVars pb occurs false (List.range pb.nbVars) with
    | .done p occ modified =>
      if modified then selfSubLoop p occ false fuel
      else .ok (p, neverModified)
    | .stopped p => .ok (p, false)
    | .oob => .oob

/-- Source method `(pb *Problem) SelfSub()` (source lines 120–376): run the fixpoint
loop and, unless nothing was ever modified, finish with `Simplify2`.
A return with `Status = Unsat` inside the loop skips the final
`Simplify2` (the `return` statements exit the whole function). -/
def selfSub (pb : Problem) : Res Problem :=
  let occurs := buildOccurs pb.nbVars pb.clauses
  match selfSubLoop pb occurs true (totalLits pb.clauses + 2) with
  | .ok (p, neverModified) =>
    if p.status = .unsat then .ok p
    else if neverModified then .ok p
    else simplify2 p
  | .oob => .oob
  | .fuelOut => .fuelOut

/-! ## `Subsumption` (source lines 379–495) -/

/-- One pair test of the subsumption marking loops (source lines 401–429,
433–462): pairs with `idx1 <= idx2` are skipped; a strictly shorter
clause that subsumes the longer one marks the longer one's position. -/
def markStep (cs : List Clause) (acc : List Nat) (idx1 idx2 : Nat) : List Nat :=
  if idx1 ≤ idx2 then acc
  else
    let c1 := cs.getD idx1 []
    let c2 := cs.getD idx2 []
    let acc1 := if c2.length < c1.length ∧ Clause.subsumes c2 c1 then acc ++ [idx1] else acc
    if c1.length < c2.length ∧ Clause.subsumes c1 c2 then acc1 ++ [idx2] else acc1

/-- All marks produced by scanning one occurrence list against itself. -/
def pairMarks (cs : List Clause) (acc : List Nat) (idxs : List Nat) : List Nat :=
  idxs.foldl (fun a i1 => idxs.foldl (fun a2 i2 => markStep cs a2 i1 i2) a) acc

/-- The source `toRemove` list of `Subsumption` (source lines 388–464): for every
unbound variable, scan its positive and then its negative occurrence
list. -/
def subsumptionMarks (pb : Problem) (occurs : List (List Nat)) : List Nat :=
  (List.range pb.nbVars).foldl
    (fun acc i =>
      if pb.model.getD i 0 ≠ 0 then acc
      else pairMarks pb.clauses (pairMarks pb.clauses acc (occurs.getD (2 * i) []))
             (occurs.getD (2 * i + 1) []))
    []

/-- Source method `(pb *Problem) Subsumption()` (source lines 379–495): mark subsumed
clauses, keep exactly the unmarked positions (source lines 466–482),
then run `Simplify2`.  The occurrence-index rebuild before `Simplify2`
is dead state and is dropped. -/
def subsumption (pb : Problem) : Res Problem :=
  let occurs := buildOccurs pb.nbVars pb.clauses
  let marks := subsumptionMarks pb occurs
  let newClauses := (pb.clauses.enum.filter (fun p => !(marks.contains p.1))).map Prod.snd
  simplify2 { pb with clauses := newClauses }

/-- Source method `(pb *Problem) Preprocess()` (source lines 114–117): `SelfSub` then
`Subsumption`; a panic in `SelfSub` aborts everything. -/
def preprocess (pb : Problem) : Res Problem :=
  match selfSub pb with
  | .ok p => subsumption p
  | .oob => .oob
  | .fuelOut => .fuelOut

/-! ## Concrete inputs used to settle the individual claims

Literal encoding reminder: variable `v` appears positively as `2*v` and
negatively as `2*v+1`. -/

/-- Scenario C of the spec, used for claim C1: variables `x1 = 0`,
`x2 = 1`; clauses `{(x1 ∨ x2), (¬x1 ∨ x2)}`. -/
def inputC1 : Problem :=
  { nbVars := 2, clauses := [[0, 2], [1, 2]], status := .undetermined,
    units := [], model := [0, 0] }

/-- Scenario C of the spec, used for claim C2 (same formula as `inputC1`,
kept separate so the two claims share no definition). -/
def inputC2 : Problem :=
  { nbVars := 2, clauses := [[0, 2], [1, 2]], status := .undetermined,
    units := [], model := [0, 0] }

/-- State with `Status = Unsat` on which `Simplify2` is not a no-op
(claim C3): one clause `(x0 ∨ x1)` with `x0` bound true. -/
def inputC3 : Problem :=
  { nbVars := 2, clauses := [[0, 2]], status := .unsat,
    units := [], model := [1, 0] }

/-- State for claim C6: variable `0` already bound true and the literal
`0` already recorded in `Units`. -/
def inputC6 : Problem :=
  { nbVars := 1, clauses := [], status := .undetermined,
    units := [0], model := [1] }

/-- Input for claim C7: variables `x = 0`, `y = 1`, `z = 2`, `u = 3`;
clauses `(x∨x), (¬x∨y), (z∨z), (¬z∨¬y), (¬y∨¬y), (¬y∨u)`.  `SelfSub`
derives the unit `y` and then a conflicting unit `¬y`, returning with
`Status = Unsat` while clauses still contain bound literals; the final
`Simplify2` then returns early, leaving them in place. -/
def inputC7 : Problem :=
  { nbVars := 4,
    clauses := [[0, 0], [1, 2], [4, 4], [5, 3], [3, 3], [3, 6]],
    status := .undetermined, units := [], model := [0, 0, 0, 0] }

/-- The state produced by `preprocess inputC7`. -/
def outC7 : Problem :=
  { nbVars := 4,
    clauses := [[0, 0], [6, 6], [4, 4], [5, 3], [3, 3]],
    status := .unsat, units := [2, 6], model := [0, 1, 0, 1] }

/-- Input for claim C9: variables `x0 = 0`, `a = 1`, `b = 2`, `c = 3`,
`d = 4`, `e = 5`, `f = 6`.  Clauses: `(x0∨a∨b)`, a clause with nine `x0`
occurrences plus `c, d`, `(¬x0∨a∨b)`, a clause with nine `¬x0`
occurrences plus `e, f`, and `(c∨d)`.  Both occurrence lists of `x0` have
length 10, so the first run's `SelfSub` skips `x0`; `Subsumption` removes
the clause subsumed by `(c∨d)`, dropping `|occurs[x0]|` to 1, and the
second run's `SelfSub` then fires on `x0`. -/
def inputC9 : Problem :=
  { nbVars := 7,
    clauses := [[0, 2, 4],
                [0, 0, 0, 0, 0, 0, 0, 0, 0, 6, 8],
                [1, 2, 4],
                [1, 1, 1, 1, 1, 1, 1, 1, 1, 10, 12],
                [6, 8]],
    status := .undetermined, units := [],
    model := [0, 0, 0, 0, 0, 0, 0] }

/-- The state produced by the first run `preprocess inputC9`. -/
def outC9a : Problem :=
  { nbVars := 7,
    clauses := [[0, 2, 4], [1, 2, 4], [1, 1, 1, 1, 1, 1, 1, 1, 1, 10, 12], [6, 8]],
    status := .undetermined, units := [],
    model := [0, 0, 0, 0, 0, 0, 0] }

/-- The state produced by the second run `preprocess outC9a`. -/
def outC9b : Problem :=
  { nbVars := 7,
    clauses := [[2, 4], [6, 8], [1, 1, 1, 1, 1, 1, 1, 1, 1, 10, 12]],
    status := .undetermined, units := [],
    model := [0, 0, 0, 0, 0, 0, 0] }

/-- Input for claim C10: variables `a = 0`, `b = 1`, `c = 2`; clauses
`(a∨b)` and two identical copies of `(a∨b∨c)`. -/
def inputC10 : Problem :=
  { nbVars := 3,
    clauses := [[0, 2], [0, 2, 4], [0, 2, 4]],
    status := .undetermined, units := [], model := [0, 0, 0] }

/-- Input used by the witness of claim C8: an already-Unsatisfiable state
with an empty database, on which every operation terminates normally. -/
def inputC8 : Problem :=
  { nbVars := 1, clauses := [], status := .unsat, units := [], model := [0] }

/-- Input used by the witness of the amended claim C7: an empty formula,
preprocessed to `Status = Sat` with an empty database. -/
def inputC7w : Problem :=
  { nbVars := 1, clauses := [], status := .undetermined, units := [], model := [0] }

/-- The state produced by `preprocess inputC7w`. -/
def outC7w : Problem :=
  { nbVars := 1, clauses := [], status := .sat, units := [], model := [0] }

/-! # Helper lemmas about swap-with-last removal -/

/-- Setting position `i` to `x` exchanges the old element for `x`, up to
permutation. -/
theorem getD_set_perm {α : Type} (d x : α) :
    ∀ (i : Nat) (a : List α), i < a.length → (a.getD i d :: a.set i x).Perm (x :: a)
  | 0, [], h => absurd h (by simp)
  | 0, hd :: tl, _ => by
    simpa using List.Perm.swap x hd tl
  | i + 1, [], h => absurd h (by simp)
  | i + 1, hd :: tl, h => by
    have hi : i < tl.length := by simpa using h
    have ih := getD_set_perm d x i tl hi
    simp only [List.getD_cons_succ, List.set_cons_succ]
    exact ((List.Perm.swap hd _ _).trans ((ih.cons hd))).trans (List.Perm.swap x hd tl)

/-- Swap-with-last removal at a valid position succeeds and removes
exactly the element at that position, up to permutation. -/
theorem removeSwap_spec :
    ∀ (i : Nat) (a : List Clause), i < a.length →
      ∃ cs', removeSwap a i = some cs' ∧ cs'.length = a.length - 1 ∧
        (a.getD i [] :: cs').Perm a
  | _, [], h => absurd h (by simp)
  | 0, hd :: tl, _ => by
    rcases tl with _ | ⟨h2, t2⟩
    · exact ⟨[], by simp [removeSwap], by simp, by simp⟩
    · have hne : (h2 :: t2) ≠ [] := by simp
      refine ⟨(h2 :: t2).getD t2.length [] :: (h2 :: t2).dropLast, ?_, by simp, ?_⟩
      · simp only [removeSwap, List.length_cons, Nat.add_sub_cancel,
          if_pos (by omega : 0 < t2.length + 1 + 1)]
        rw [List.getD_cons_succ, List.set_cons_zero, List.take_succ_cons]
        have hdl : List.take t2.length (h2 :: t2) = (h2 :: t2).dropLast := by
          rw [List.dropLast_eq_take]
          simp
        rw [hdl]
      · rw [List.getD_cons_zero]
        refine List.Perm.cons hd ?_
        have hg : (h2 :: t2).getD t2.length [] = (h2 :: t2).getLast hne := by
          rw [List.getD_eq_getElem _ _ (by simp), List.getLast_eq_getElem]
          simp
        rw [hg]
        have hp := List.perm_append_singleton ((h2 :: t2).getLast hne) (h2 :: t2).dropLast
        rw [List.dropLast_append_getLast hne] at hp
        exact hp.symm
  | i + 1, hd :: tl, h => by
    have hi : i < tl.length := by simpa using h
    obtain ⟨body, hbody, hlen, hperm⟩ := removeSwap_spec i tl hi
    obtain ⟨m, hm⟩ : ∃ m, tl.length = m + 1 := ⟨tl.length - 1, by omega⟩
    simp only [removeSwap, hm, Nat.add_sub_cancel] at hbody
    rw [if_pos (show i < m + 1 by omega)] at hbody
    refine ⟨hd :: body, ?_, ?_, ?_⟩
    · simp only [removeSwap, List.length_cons, hm, Nat.add_sub_cancel,
        if_pos (by omega : i + 1 < m + 1 + 1)]
      rw [List.getD_cons_succ, List.set_cons_succ, List.take_succ_cons]
      rw [Option.some_inj] at hbody ⊢
      rw [hbody]
    · simp only [List.length_cons, hlen, hm, Nat.add_sub_cancel]
    · rw [List.getD_cons_succ]
      exact (List.Perm.swap hd _ _).trans (hperm.cons hd)

/-- Removing a position inside the left part of an append, after the swap
with the appended last element, keeps a set-form list. -/
theorem removeSwap_append (cs : List Clause) (newC : Clause) (idx : Nat)
    (h : idx < cs.length) :
    removeSwap (cs ++ [newC]) idx = some (cs.set idx newC) := by
  have hlen : (cs ++ [newC]).length = cs.length + 1 := by simp
  have hgd : (cs ++ [newC]).getD ((cs ++ [newC]).length - 1) [] = newC := by
    rw [hlen, Nat.add_sub_cancel, List.getD_eq_getElem _ _ (by simp)]
    rw [List.getElem_append_right (Nat.le_refl _)]
    simp
  simp only [removeSwap, if_pos (by omega : idx < (cs ++ [newC]).length)]
  rw [hgd, hlen, Nat.add_sub_cancel, List.set_append, if_pos h]
  have := List.take_left (cs.set idx newC) [newC]
  rw [List.length_set] at this
  rw [this]

/-! # Status monotonicity helpers

Every operation of the preprocessor either sets `Status` to `Unsat` or
leaves it unchanged, and `Sat` is introduced only by `updateStatus` on an
empty truncated database. -/

/-- Auxiliary: `addUnit` leaves the status unchanged or sets it to
`Unsat`. -/
theorem addUnit_status_cases (pb : Problem) (l : Lit) :
    (addUnit pb l).status = pb.status ∨ (addUnit pb l).status = .unsat := by
  unfold addUnit
  split <;> split <;> simp

/-- Auxiliary: `updateStatus` preserves `Unsat`. -/
theorem updateStatus_unsat (pb : Problem) (n : Nat) (h : pb.status = .unsat) :
    (updateStatus pb n).status = .unsat := by
  simp [updateStatus, h]

/-- Auxiliary: if `updateStatus` reports `Sat`, either the status was
already `Sat` or the database was truncated to empty. -/
theorem updateStatus_sat (pb : Problem) (n : Nat)
    (h : (updateStatus pb n).status = .sat) :
    pb.status = .sat ∨ (updateStatus pb n).clauses = [] := by
  unfold updateStatus at h ⊢
  split at h
  · next hc => right; simp [hc.2]
  · left; exact h

/-- Auxiliary: the early returns of `Simplify2`'s sweep always carry
`Status = Unsat`. -/
theorem sweepClauses_early_unsat :
    ∀ (gap : Nat) (pb : Problem) (i : Nat) (restart : Bool) (p : Problem),
      sweepClauses pb i restart gap = .early p → p.status = .unsat := by
  intro gap
  induction gap with
  | zero => intro pb i restart p h; simp [sweepClauses] at h
  | succ gap ih =>
    intro pb i restart p h
    simp only [sweepClauses] at h
    split at h
    · exact ih _ _ _ _ h
    · split at h
      · cases h; rfl
      · split at h
        · split at h
          · next hst => cases h; exact hst
          · exact ih _ _ _ _ h
        · exact ih _ _ _ _ h

/-- Auxiliary: a normal exit of `Simplify2`'s sweep leaves the status
unchanged (a status change inside the sweep forces an early return). -/
theorem sweepClauses_full_status :
    ∀ (gap : Nat) (pb : Problem) (i : Nat) (restart : Bool) (p : Problem)
      (nb : Nat) (r : Bool),
      sweepClauses pb i restart gap = .full p nb r → p.status = pb.status := by
  intro gap
  induction gap with
  | zero => intro pb i restart p nb r h; cases h; rfl
  | succ gap ih =>
    intro pb i restart p nb r h
    simp only [sweepClauses] at h
    split at h
    · exact (ih _ _ _ _ _ _ h).trans rfl
    · split at h
      · cases h
      · split at h
        · split at h
          · cases h
          · next hst =>
            have h2 := (addUnit_status_cases _ _).resolve_right hst
            exact ((ih _ _ _ _ _ _ h).trans h2).trans rfl
        · exact (ih _ _ _ _ _ _ h).trans rfl

/-- Auxiliary: status behaviour of the `Simplify2` restart loop. -/
theorem simplify2Loop_status :
    ∀ (fuel nb : Nat) (pb s : Problem),
      simplify2Loop nb pb fuel = .ok s →
      (pb.status = .unsat → s.status = .unsat) ∧
      (s.status = .sat → pb.status = .sat ∨ s.clauses = []) := by
  intro fuel
  induction fuel with
  | zero => intro nb pb s h; simp [simplify2Loop] at h
  | succ fuel ih =>
    intro nb pb s h
    simp only [simplify2Loop] at h
    split at h
    · next p hearly =>
      cases h
      have := sweepClauses_early_unsat _ _ _ _ _ hearly
      exact ⟨fun _ => this, fun hs => absurd hs (by simp [this])⟩
    · next p nb' restart hfull =>
      have hpeq := sweepClauses_full_status _ _ _ _ _ _ _ hfull
      split at h
      · have := ih _ _ _ h
        rw [hpeq] at this
        exact this
      · cases h
        constructor
        · intro hu
          exact updateStatus_unsat _ _ (hpeq.trans hu)
        · intro hs
          rcases updateStatus_sat _ _ hs with hc | hc
          · exact Or.inl (hpeq ▸ hc)
          · exact Or.inr hc

/-- Auxiliary: status behaviour of `Simplify2`. -/
theorem simplify2_status (pb s : Problem) (h : simplify2 pb = .ok s) :
    (pb.status = .unsat → s.status = .unsat) ∧
    (s.status = .sat → pb.status = .sat ∨ s.clauses = []) :=
  simplify2Loop_status _ _ _ _ h

/-- Auxiliary: the early-return case of the resolvent handler always
carries `Status = Unsat`. -/
theorem handleResolvent_error_unsat (pb p : Problem) (c : Clause)
    (h : handleResolvent pb c = .error p) : p.status = .unsat := by
  unfold handleResolvent at h
  split at h
  · cases h
  · split at h
    · cases h; rfl
    · split at h
      · split at h
        · cases h; rfl
        · split at h <;> cases h
      · split at h
        · cases h; rfl
        · split at h <;> cases h
    · cases h

/-- Auxiliary: the continue case of the resolvent handler leaves the
status unchanged. -/
theorem handleResolvent_ok_status (pb p : Problem) (c : Clause)
    (h : handleResolvent pb c = .ok p) : p.status = pb.status := by
  unfold handleResolvent at h
  split at h
  · cases h; rfl
  · split at h
    · cases h
    · split at h
      · split at h
        · cases h
        · split at h
          · cases h; rfl
          · cases h; rfl
      · split at h
        · cases h
        · split at h
          · cases h; rfl
          · cases h; rfl
    · cases h; rfl

/-- Auxiliary: a pair test that reports `changed` leaves the status
unchanged. -/
theorem processPair_changed_status (pb : Problem) (occurs : List (List Nat))
    (v : Var) (i1 i2 : Nat) (p : Problem)
    (h : processPair pb occurs v i1 i2 = .changed p) : p.status = pb.status := by
  simp only [processPair] at h
  split at h
  · split at h
    · cases h
    · next q hq =>
      split at h
      · split at h
        · cases h
          have hs := handleResolvent_ok_status _ _ _ hq
          exact hs
        · cases h
      · cases h
  · split at h
    · split at h
      · cases h
      · next q hq =>
        split at h
        · split at h
          · cases h
            have hs := handleResolvent_ok_status _ _ _ hq
            exact hs
          · cases h
        · cases h
    · split at h
      · split at h
        · cases h
        · next q hq =>
          split at h
          · split at h
            · cases h
              have hs := handleResolvent_ok_status _ _ _ hq
              exact hs
            · cases h
          · cases h
      · cases h

/-- Auxiliary: a pair test that reports `unsatStop` carries
`Status = Unsat`. -/
theorem processPair_unsatStop_status (pb : Problem) (occurs : List (List Nat))
    (v : Var) (i1 i2 : Nat) (p : Problem)
    (h : processPair pb occurs v i1 i2 = .unsatStop p) : p.status = .unsat := by
  simp only [processPair] at h
  split at h
  · split at h
    · next q hq => cases h; exact handleResolvent_error_unsat _ _ _ hq
    · split at h
      · split at h <;> cases h
      · cases h
  · split at h
    · split at h
      · next q hq => cases h; exact handleResolvent_error_unsat _ _ _ hq
      · split at h
        · split at h <;> cases h
        · cases h
    · split at h
      · split at h
        · next q hq => cases h; exact handleResolvent_error_unsat _ _ _ hq
        · split at h
          · split at h <;> cases h
          · cases h
      · cases h

/-- Auxiliary: status behaviour of a pair scan in `SelfSub`. -/
theorem processPairs_status (pb : Problem) (occurs : List (List Nat)) (v : Var) :
    ∀ (prs : List (Nat × Nat)),
      (∀ p, processPairs pb occurs v prs = .changed p → p.status = pb.status) ∧
      (∀ p, processPairs pb occurs v prs = .unsatStop p → p.status = .unsat)
  | [] => by
    constructor <;> intro p h <;> simp [processPairs] at h
  | pr :: rest => by
    have ih := processPairs_status pb occurs v rest
    constructor <;> intro p h <;>
      simp only [processPairs] at h <;>
      rcases hpo : processPair pb occurs v pr.1 pr.2 with _ | q | q | _ <;>
      rw [hpo] at h
    · exact ih.1 p h
    · cases h; exact processPair_changed_status _ _ _ _ _ _ hpo
    · cases h
    · cases h
    · exact ih.2 p h
    · cases h
    · cases h; exact processPair_unsatStop_status _ _ _ _ _ _ hpo
    · cases h

/-- Auxiliary: status behaviour of one variable sweep of `SelfSub`. -/
theorem sweepVars_status :
    ∀ (vl : List Nat) (pb : Problem) (occurs : List (List Nat)) (modified : Bool),
      (∀ p occ m, sweepVars pb occurs modified vl = .done p occ m → p.status = pb.status) ∧
      (∀ p, sweepVars pb occurs modified vl = .stopped p → p.status = .unsat)
  | [] => by
    intro pb occurs modified
    constructor
    · intro p occ m h; cases h; rfl
    · intro p h; cases h
  | i :: rest => by
    intro pb occurs modified
    constructor
    · intro p occ m h
      simp only [sweepVars] at h
      split at h
      · exact ((sweepVars_status rest pb occurs modified).1 _ _ _ h)
      · next q hq =>
        have h1 := (sweepVars_status rest q _ true).1 _ _ _ h
        exact h1.trans (processPairs_status pb occurs i _ |>.1 _ hq)
      · cases h
      · cases h
    · intro p h
      simp only [sweepVars] at h
      split at h
      · exact ((sweepVars_status rest pb occurs modified).2 _ h)
      · next q hq =>
        exact ((sweepVars_status rest q _ true).2 _ h)
      · next q hq => cases h; exact processPairs_status pb occurs i _ |>.2 _ hq
      · cases h

/-- Auxiliary: status behaviour of the `SelfSub` fixpoint loop. -/
theorem selfSubLoop_status :
    ∀ (fuel : Nat) (pb : Problem) (occurs : List (List Nat)) (nm : Bool)
      (p : Problem) (b : Bool),
      selfSubLoop pb occurs nm fuel = .ok (p, b) →
      p.status = pb.status ∨ p.status = .unsat := by
  intro fuel
  induction fuel with
  | zero => intro pb occurs nm p b h; simp [selfSubLoop] at h
  | succ fuel ih =>
    intro pb occurs nm p b h
    simp only [selfSubLoop] at h
    split at h
    · next q occ m hsw =>
      split at h
      · rcases ih _ _ _ _ _ h with h1 | h1
        · exact Or.inl (h1.trans ((sweepVars_status _ _ _ _).1 _ _ _ hsw))
        · exact Or.inr h1
      · cases h
        exact Or.inl ((sweepVars_status _ _ _ _).1 _ _ _ hsw)
    · next q hst =>
      cases h
      exact Or.inr ((sweepVars_status _ _ _ _).2 _ hst)
    · cases h

/-- Auxiliary: status behaviour of `SelfSub`. -/
theorem selfSub_status (pb s : Problem) (h : selfSub pb = .ok s) :
    (pb.status = .unsat → s.status = .unsat) ∧
    (s.status = .sat → pb.status = .sat ∨ s.clauses = []) := by
  simp only [selfSub] at h
  split at h
  · next q nm hloop =>
    have hq := selfSubLoop_status _ _ _ _ _ _ hloop
    split at h
    · next hu =>
      cases h
      constructor
      · intro _; exact hu
      · intro hs; rw [hs] at hu; cases hu
    · split at h
      · cases h
        constructor
        · intro hpu
          rcases hq with h1 | h1
          · exact h1.trans hpu
          · exact h1
        · intro hs
          rcases hq with h1 | h1
          · exact Or.inl (h1 ▸ hs)
          · rw [hs] at h1; cases h1
      · have hs2 := simplify2_status _ _ h
        constructor
        · intro hpu
          apply hs2.1
          rcases hq with h1 | h1
          · exact h1.trans hpu
          · exact h1
        · intro hs
          rcases hs2.2 hs with h1 | h1
          · rcases hq with h2 | h2
            · exact Or.inl (h2 ▸ h1)
            · rw [h1] at h2; cases h2
          · exact Or.inr h1
  · cases h
  · cases h

/-- Auxiliary: status behaviour of `Subsumption`. -/
theorem subsumption_status (pb s : Problem) (h : subsumption pb = .ok s) :
    (pb.status = .unsat → s.status = .unsat) ∧
    (s.status = .sat → pb.status = .sat ∨ s.clauses = []) := by
  simp only [subsumption] at h
  have hs := simplify2_status _ _ h
  exact hs

/-- Auxiliary: `Simplify2` on an empty database returns an empty
database. -/
theorem simplify2_empty_clauses (pb s : Problem) (he : pb.clauses = [])
    (h : simplify2 pb = .ok s) : s.clauses = [] := by
  unfold simplify2 at h
  rw [he] at h
  simp only [List.length_nil, simplify2Loop, sweepClauses, Bool.false_eq_true,
    if_false] at h
  cases h
  simp [updateStatus]

/-- Auxiliary: `Subsumption` on an empty database returns an empty
database. -/
theorem subsumption_preserves_empty (q s : Problem) (he : q.clauses = [])
    (h : subsumption q = .ok s) : s.clauses = [] := by
  simp only [subsumption] at h
  exact simplify2_empty_clauses _ _ (by simp [he]) h

/-- Auxiliary: status behaviour of `Preprocess`. -/
theorem preprocess_status (pb s : Problem) (h : preprocess pb = .ok s) :
    (pb.status = .unsat → s.status = .unsat) ∧
    (s.status = .sat → pb.status = .sat ∨ s.clauses = []) := by
  simp only [preprocess] at h
  split at h
  · next q hq =>
    have h1 := selfSub_status _ _ hq
    have h2 := subsumption_status _ _ h
    constructor
    · intro hu; exact h2.1 (h1.1 hu)
    · intro hs
      rcases h2.2 hs with hc | hc
      · rcases h1.2 hc with hd | hd
        · exact Or.inl hd
        · exact Or.inr (subsumption_preserves_empty q s hd h)
      · exact Or.inr hc
  · cases h
  · cases h

/-- C4: in `SelfSub`, when both self-subsumption directions hold and the
resolvent survives simplification with length ≥ 2, the database update of
the both-directions branch — append the resolvent, then remove `C1` and
`C2` by the two swap-with-last removals — succeeds for every pair of
distinct valid positions `idx1, idx2` (including when either is the last
position), and the resulting clause multiset equals the previous one
minus `C1` and `C2` plus the resolvent. -/
theorem selfSub_bothBranch_multiset (cs : List Clause) (newC : Clause)
    (idx1 idx2 : Nat) (h1 : idx1 < cs.length) (h2 : idx2 < cs.length)
    (hne : idx1 ≠ idx2) :
    ∃ cs', bothRemove (cs ++ [newC]) idx1 idx2 = some cs' ∧
      (cs' : Multiset Clause) + {cs.getD idx1 [], cs.getD idx2 []} =
        (cs : Multiset Clause) + {newC} := by
  have h2' : idx2 < (cs.set idx1 newC).length := by
    rw [List.length_set]
    exact h2
  obtain ⟨d2, hd2, _, hperm2⟩ := removeSwap_spec idx2 (cs.set idx1 newC) h2'
  have hg : (cs.set idx1 newC).getD idx2 [] = cs.getD idx2 [] := by
    rw [List.getD_eq_getElem _ _ h2', List.getD_eq_getElem _ _ h2]
    exact List.getElem_set_ne hne _
  rw [hg] at hperm2
  have p1 := getD_set_perm ([] : Clause) newC idx1 cs h1
  refine ⟨d2, ?_, ?_⟩
  · simp only [bothRemove, removeSwap_append cs newC idx1 h1, Option.some_bind]
    exact hd2
  · have chain : (d2 ++ [cs.getD idx1 [], cs.getD idx2 []]).Perm (cs ++ [newC]) := by
      refine List.perm_append_comm.trans ?_
      refine (List.Perm.trans ?_ (List.perm_append_singleton newC cs).symm)
      exact (hperm2.cons _).trans p1
    have hL : ({cs.getD idx1 [], cs.getD idx2 []} : Multiset Clause) =
        (↑[cs.getD idx1 [], cs.getD idx2 []] : Multiset Clause) := rfl
    have hR : ({newC} : Multiset Clause) = (↑[newC] : Multiset Clause) := rfl
    rw [hL, hR, Multiset.coe_add, Multiset.coe_add, Multiset.coe_eq_coe]
    exact chain

/-- Witness for C4 at a concrete input: `cs = [[0], [2]]`, resolvent
`[4]`, positions `0` and `1` (position `1` is the last one). -/
theorem selfSub_bothBranch_multiset_witness :
    ∃ cs', bothRemove (([[0], [2]] : List Clause) ++ [[4]]) 0 1 = some cs' ∧
      (cs' : Multiset Clause) +
          {([[0], [2]] : List Clause).getD 0 [], ([[0], [2]] : List Clause).getD 1 []} =
        (([[0], [2]] : List Clause) : Multiset Clause) + {[4]} :=
  selfSub_bothBranch_multiset [[0], [2]] [4] 0 1 (by decide) (by decide) (by decide)

/-- C5: a pairwise clause test `(idx1, idx2)` is attempted for variable
`i` in `SelfSub` only when `i` is unbound, at least one of the two
occurrence lists is strictly shorter than 10, and both occurrence lists
are non-empty; contrapositively, a variable missing any of the three
conditions generates no pair test. -/
theorem selfSub_guard_pairs (occurs : List (List Nat)) (model : List Int)
    (i i1 i2 : Nat) (h : (i1, i2) ∈ varCandidatePairs occurs model i) :
    model.getD i 0 = 0 ∧
      ((occurs.getD (2 * i) []).length < 10 ∨ (occurs.getD (2 * i + 1) []).length < 10) ∧
      (occurs.getD (2 * i) []).length ≠ 0 ∧ (occurs.getD (2 * i + 1) []).length ≠ 0 := by
  simp only [varCandidatePairs] at h
  split at h
  · exact absurd h (List.not_mem_nil _)
  · next hm =>
    split at h
    · next hguard =>
      rw [List.mem_flatMap] at h
      obtain ⟨a, ha, hmem⟩ := h
      rw [List.mem_map] at hmem
      obtain ⟨b, hb, _⟩ := hmem
      refine ⟨not_not.mp hm, hguard.1, ?_, ?_⟩
      · exact (List.length_pos.mpr (List.ne_nil_of_mem ha)).ne'
      · exact (List.length_pos.mpr (List.ne_nil_of_mem hb)).ne'
    · exact absurd h (List.not_mem_nil _)

/-- Witness for C5 at a concrete input: with one positive and one
negative occurrence of variable `0`, the pair `(3, 7)` is examined and
all three guard conditions hold. -/
theorem selfSub_guard_pairs_witness :
    ([(0 : Int)] : List Int).getD 0 0 = 0 ∧
      ((([[3], [7]] : List (List Nat)).getD (2 * 0) []).length < 10 ∨
        (([[3], [7]] : List (List Nat)).getD (2 * 0 + 1) []).length < 10) ∧
      (([[3], [7]] : List (List Nat)).getD (2 * 0) []).length ≠ 0 ∧
      (([[3], [7]] : List (List Nat)).getD (2 * 0 + 1) []).length ≠ 0 :=
  selfSub_guard_pairs [[3], [7]] [0] 0 3 7 (by decide)

set_option maxRecDepth 40000

/-- C1: the spec's own Scenario C `{(x1∨x2), (¬x1∨x2)}` is a well-formed
input (clauses of length ≥ 2, unbound assignment, Undetermined status) on
which `Preprocess` hits an out-of-range clause index inside `SelfSub`'s
both-directions removal (a Go runtime panic), so it produces no output
formula at all — the claimed satisfiability-preservation equivalence has
no left-hand side on this input. -/
theorem preprocess_crashes_on_scenarioC :
    (∀ c ∈ inputC1.clauses, 2 ≤ c.length) ∧ inputC1.status = .undetermined ∧
      (∀ m ∈ inputC1.model, m = 0) ∧ preprocess inputC1 = Res.oob :=
  ⟨by decide, rfl, by decide, by rfl⟩

/-- C2: on the well-formed input `{(x1∨x2), (¬x1∨x2)}` the two successive
swap-with-last removals of `SelfSub`'s both-directions branch index past
the end of the clause database: the resolvent collapses to the unit
`(x2)`, so nothing is appended, and after the first truncation the second
removal reads `Clauses[idx2]` with `idx2` equal to the old last position. -/
theorem selfSub_oob_on_scenarioC :
    (∀ c ∈ inputC2.clauses, 2 ≤ c.length) ∧ inputC2.status = .undetermined ∧
      (∀ m ∈ inputC2.model, m = 0) ∧ selfSub inputC2 = Res.oob :=
  ⟨by decide, rfl, by decide, by rfl⟩

/-- C3 counterexample: a state with `Status = Unsat` on which `Simplify2`
is not a no-op — the satisfied clause `(x0 ∨ x1)` is removed, so the
clause database changes. -/
theorem simplify2_not_noop_when_unsat :
    inputC3.status = .unsat ∧
      simplify2 inputC3 = .ok { inputC3 with clauses := ([] : List Clause) } ∧
      ({ inputC3 with clauses := ([] : List Clause) }) ≠ inputC3 :=
  ⟨rfl, by rfl, by decide⟩

/-- C6 counterexample: `addUnit` does not suppress duplicates — called
with a literal that is already in `Units` (and whose variable is bound to
the matching value), it appends the literal again. -/
theorem addUnit_appends_duplicate :
    inputC6.units = [0] ∧ (addUnit inputC6 0).units = [0, 0] ∧
      (addUnit inputC6 0).status = inputC6.status :=
  ⟨rfl, by rfl, by rfl⟩

/-- C6 as amended: on a conflicting binding `addUnit` sets
`Status = Unsat` and changes nothing else; otherwise it binds the
variable and appends the literal to `Units` unconditionally — even when
the literal is already present (no duplicate suppression). -/
theorem addUnit_characterization (pb : Problem) (lit : Lit) :
    (pb.model.getD lit.var 0 = (if lit.isPositive then (-1 : Int) else 1) →
      addUnit pb lit = { pb with status := .unsat }) ∧
    (pb.model.getD lit.var 0 ≠ (if lit.isPositive then (-1 : Int) else 1) →
      addUnit pb lit =
        { pb with
          model := pb.model.set lit.var (if lit.isPositive then 1 else -1)
          units := pb.units ++ [lit] }) := by
  by_cases hp : lit.isPositive <;>
    constructor <;> intro h <;> simp [addUnit, hp] <;> simp [hp] at h <;> simp [h]

/-- Witness for the amended C6 at a concrete input: the non-conflicting
branch appends the duplicate literal. -/
theorem addUnit_characterization_witness :
    addUnit inputC6 0 =
      { inputC6 with
        model := inputC6.model.set (Lit.var 0) (if Lit.isPositive 0 then 1 else -1)
        units := inputC6.units ++ [0] } :=
  (addUnit_characterization inputC6 0).2 (by decide)

/-- C7 counterexample: on the well-formed input `inputC7`, `Preprocess`
returns with `Status = Unsat` while the clause database still contains
the clause `(¬y ∨ ¬y)` even though variable `y` is bound — the final
`Simplify2` returned early, so bound literals were not stripped. -/
theorem preprocess_leaves_bound_literal :
    (∀ c ∈ inputC7.clauses, 2 ≤ c.length) ∧ inputC7.status = .undetermined ∧
      (∀ m ∈ inputC7.model, m = 0) ∧
      preprocess inputC7 = .ok outC7 ∧ [3, 3] ∈ outC7.clauses ∧
      outC7.model.getD (Lit.var 3) 0 ≠ 0 :=
  ⟨by decide, rfl, by decide, by rfl, by decide, by decide⟩

/-- C9 counterexample: on the well-formed input `inputC9` a second run of
`Preprocess` changes the clause database again (the first run's `SelfSub`
skipped variable `x0` because both occurrence lists had length 10;
`Subsumption` then shrank one of them, so the second run's `SelfSub`
fires on `x0`). -/
theorem preprocess_not_idempotent :
    preprocess inputC9 = .ok outC9a ∧ preprocess outC9a = .ok outC9b ∧
      outC9b ≠ outC9a :=
  ⟨by rfl, by rfl, by decide⟩

/-- C9 as amended: `Preprocess` is not idempotent in general — on the
well-formed input `inputC9` the second run changes the clause set; on
this input a third run then changes nothing further. -/
theorem preprocess_second_run_changes :
    (∀ c ∈ inputC9.clauses, 2 ≤ c.length) ∧ inputC9.status = .undetermined ∧
      (∀ m ∈ inputC9.model, m = 0) ∧
      preprocess inputC9 = .ok outC9a ∧ preprocess outC9a = .ok outC9b ∧
      outC9b ≠ outC9a ∧ preprocess outC9b = .ok outC9b :=
  ⟨by decide, rfl, by decide, by rfl, by rfl, by decide, by rfl⟩

/-- C3 as amended: once `Status = Unsat`, the status itself never changes
under any further pass — `Simplify2`, `SelfSub` and `Subsumption` all
preserve `Unsat` (but they are not no-ops on the rest of the state, as
the counterexample shows). -/
theorem passes_preserve_unsat (pb s : Problem) (h : pb.status = .unsat) :
    (simplify2 pb = .ok s → s.status = .unsat) ∧
    (selfSub pb = .ok s → s.status = .unsat) ∧
    (subsumption pb = .ok s → s.status = .unsat) :=
  ⟨fun hh => (simplify2_status _ _ hh).1 h,
   fun hh => (selfSub_status _ _ hh).1 h,
   fun hh => (subsumption_status _ _ hh).1 h⟩

/-- Witness for the amended C3 at a concrete input: `Simplify2` on the
Unsat state `inputC3` keeps `Status = Unsat`. -/
theorem passes_preserve_unsat_witness :
    ({ inputC3 with clauses := ([] : List Clause) } : Problem).status = .unsat :=
  (passes_preserve_unsat inputC3 { inputC3 with clauses := ([] : List Clause) } rfl).1
    (by rfl)

/-- C8: `Status` is monotone across every operation — `addUnit`,
`updateStatus`, `Simplify2`, `SelfSub`, `Subsumption` and `Preprocess`
never change `Status` once it is `Unsat`, and the transition from
`Undetermined` to `Satisfiable` happens only when the clause database is
empty (stated for each operation; the fallible operations are conditioned
on normal termination). -/
theorem status_monotone (pb s : Problem) (lit : Lit) (n : Nat) :
    ((pb.status = .unsat → (addUnit pb lit).status = .unsat) ∧
      (pb.status = .undetermined → (addUnit pb lit).status = .sat →
        (addUnit pb lit).clauses = [])) ∧
    ((pb.status = .unsat → (updateStatus pb n).status = .unsat) ∧
      (pb.status = .undetermined → (updateStatus pb n).status = .sat →
        (updateStatus pb n).clauses = [])) ∧
    (simplify2 pb = .ok s →
      (pb.status = .unsat → s.status = .unsat) ∧
      (pb.status = .undetermined → s.status = .sat → s.clauses = [])) ∧
    (selfSub pb = .ok s →
      (pb.status = .unsat → s.status = .unsat) ∧
      (pb.status = .undetermined → s.status = .sat → s.clauses = [])) ∧
    (subsumption pb = .ok s →
      (pb.status = .unsat → s.status = .unsat) ∧
      (pb.status = .undetermined → s.status = .sat → s.clauses = [])) ∧
    (preprocess pb = .ok s →
      (pb.status = .unsat → s.status = .unsat) ∧
      (pb.status = .undetermined → s.status = .sat → s.clauses = [])) := by
  refine ⟨⟨?_, ?_⟩, ⟨fun h => updateStatus_unsat pb n h, ?_⟩, ?_, ?_, ?_, ?_⟩
  · intro h
    rcases addUnit_status_cases pb lit with hc | hc
    · exact hc.trans h
    · exact hc
  · intro hu hs
    rcases addUnit_status_cases pb lit with hc | hc
    · rw [hu] at hc; rw [hs] at hc; cases hc
    · rw [hs] at hc; cases hc
  · intro hu hs
    rcases updateStatus_sat pb n hs with hc | hc
    · rw [hu] at hc; cases hc
    · exact hc
  · intro hh
    have h1 := simplify2_status _ _ hh
    refine ⟨h1.1, fun hu hs => ?_⟩
    rcases h1.2 hs with hc | hc
    · rw [hu] at hc; cases hc
    · exact hc
  · intro hh
    have h1 := selfSub_status _ _ hh
    refine ⟨h1.1, fun hu hs => ?_⟩
    rcases h1.2 hs with hc | hc
    · rw [hu] at hc; cases hc
    · exact hc
  · intro hh
    have h1 := subsumption_status _ _ hh
    refine ⟨h1.1, fun hu hs => ?_⟩
    rcases h1.2 hs with hc | hc
    · rw [hu] at hc; cases hc
    · exact hc
  · intro hh
    have h1 := preprocess_status _ _ hh
    refine ⟨h1.1, fun hu hs => ?_⟩
    rcases h1.2 hs with hc | hc
    · rw [hu] at hc; cases hc
    · exact hc

/-- Witness for C8 at a concrete input: on the already-Unsat state
`inputC8`, `addUnit` and a full `Preprocess` run both keep
`Status = Unsat`. -/
theorem status_monotone_witness :
    (addUnit inputC8 0).status = .unsat ∧ inputC8.status = .unsat :=
  ⟨(status_monotone inputC8 inputC8 0 0).1.1 rfl,
   ((status_monotone inputC8 inputC8 0 0).2.2.2.2.2 (by rfl)).1 rfl⟩

/-- C10 counterexample: the two identical copies of `(a∨b∨c)` do not both
survive the `Subsumption` pass — each is removed because the strictly
shorter clause `(a∨b)` subsumes it. -/
theorem subsumption_removes_duplicates :
    inputC10.clauses = [[0, 2], [0, 2, 4], [0, 2, 4]] ∧
      subsumption inputC10 = .ok { inputC10 with clauses := [[0, 2]] } :=
  ⟨rfl, by rfl⟩

/-! # Subsumption marking helpers (claim C10) -/

/-- Generic membership analysis of a `foldl` that only appends. -/
theorem mem_foldl_step {α β : Type} (f : List α → β → List α) (Q : β → α → Prop)
    (hf : ∀ a b x, x ∈ f a b → x ∈ a ∨ Q b x) :
    ∀ (l : List β) (a : List α) (x : α), x ∈ l.foldl f a → x ∈ a ∨ ∃ b ∈ l, Q b x
  | [], _, _, h => Or.inl h
  | b :: l, a, x, h => by
    rcases mem_foldl_step f Q hf l (f a b) x h with h1 | ⟨b', hb', hq⟩
    · rcases hf a b x h1 with h2 | h2
      · exact Or.inl h2
      · exact Or.inr ⟨b, List.mem_cons_self _ _, h2⟩
    · exact Or.inr ⟨b', List.mem_cons_of_mem _ hb', hq⟩

/-- Generic invariant preservation through a `foldl`. -/
theorem foldl_preserve {α β : Type} (P : α → Prop) (f : α → β → α) :
    ∀ (l : List β), (∀ a b, b ∈ l → P a → P (f a b)) → ∀ a, P a → P (l.foldl f a)
  | [], _, _, ha => ha
  | b :: l, hf, a, ha => by
    refine foldl_preserve P f l (fun a' b' hb' => hf a' b' (List.mem_cons_of_mem _ hb'))
      (f a b) (hf a b (List.mem_cons_self _ _) ha)

/-- Auxiliary: `getD` of a `set` either hits the written entry or is
unchanged. -/
theorem getD_set_cases (a : List (List Nat)) (l : Nat) (v : List Nat) (t : Nat) :
    (a.set l v).getD t [] = a.getD t [] ∨
      (t = l ∧ t < a.length ∧ (a.set l v).getD t [] = v) := by
  by_cases h1 : t = l
  · subst h1
    by_cases h2 : t < a.length
    · right
      refine ⟨rfl, h2, ?_⟩
      rw [List.getD_eq_getElem _ _ (by simpa using h2)]
      exact List.getElem_set_self _
    · left
      rw [List.set_eq_of_length_le (by omega)]
  · left
    rw [List.getD_eq_getElem?_getD, List.getD_eq_getElem?_getD,
      List.getElem?_set_ne (fun hc => h1 hc.symm)]

/-- Auxiliary: validity of the occurrence index — every recorded position
is a valid clause position and the indexed literal occurs in that clause. -/
theorem buildOccurs_valid (nbVars : Nat) (cs : List Clause) :
    ∀ t j, j ∈ (buildOccurs nbVars cs).getD t [] →
      j < cs.length ∧ t ∈ cs.getD j [] := by
  unfold buildOccurs
  refine foldl_preserve
    (fun (occ : List (List Nat)) => ∀ t j, j ∈ occ.getD t [] → j < cs.length ∧ t ∈ cs.getD j [])
    (fun (occ : List (List Nat)) (ic : Nat × Clause) =>
      ic.2.foldl (fun occ2 l => occ2.set l (occ2.getD l [] ++ [ic.1])) occ)
    cs.enum ?_ _ ?_
  · rintro occ ⟨i, c⟩ hic hocc
    obtain ⟨hi, hc⟩ := List.mem_enum hic
    refine foldl_preserve
      (fun (occ2 : List (List Nat)) => ∀ t j, j ∈ occ2.getD t [] → j < cs.length ∧ t ∈ cs.getD j [])
      (fun (occ2 : List (List Nat)) (l : Lit) => occ2.set l (occ2.getD l [] ++ [i])) c ?_ _ hocc
    intro occ2 l hl hocc2 t j hj
    rcases getD_set_cases occ2 l (occ2.getD l [] ++ [i]) t with hcase | ⟨ht, _, hval⟩
    · rw [hcase] at hj
      exact hocc2 t j hj
    · subst ht
      rw [hval] at hj
      rcases List.mem_append.mp hj with hj1 | hj1
      · exact hocc2 t j hj1
      · have hji : j = i := List.mem_singleton.mp hj1
        subst hji
        refine ⟨hi, ?_⟩
        rw [List.getD_eq_getElem _ _ hi, ← hc]
        exact hl
  · intro t j hj
    by_cases ht : t < (List.replicate (2 * nbVars) ([] : List Nat)).length
    · rw [List.getD_eq_getElem _ _ ht, List.getElem_replicate] at hj
      cases hj
    · rw [List.getD_eq_default _ _ (by omega)] at hj
      cases hj

/-- Auxiliary: membership analysis of one marking step. -/
theorem markStep_mem (cs : List Clause) (acc : List Nat) (i1 i2 x : Nat)
    (h : x ∈ markStep cs acc i1 i2) :
    x ∈ acc ∨
      (x = i1 ∧ (cs.getD i2 []).length < (cs.getD i1 []).length ∧
        Clause.subsumes (cs.getD i2 []) (cs.getD i1 []) = true) ∨
      (x = i2 ∧ (cs.getD i1 []).length < (cs.getD i2 []).length ∧
        Clause.subsumes (cs.getD i1 []) (cs.getD i2 []) = true) := by
  simp only [markStep] at h
  split at h
  · exact Or.inl h
  · split at h
    · next hc2 =>
      rcases List.mem_append.mp h with h1 | h1
      · split at h1
        · next hc1 =>
          rcases List.mem_append.mp h1 with h2 | h2
          · exact Or.inl h2
          · exact Or.inr (Or.inl ⟨List.mem_singleton.mp h2, hc1.1, hc1.2⟩)
        · exact Or.inl h1
      · exact Or.inr (Or.inr ⟨List.mem_singleton.mp h1, hc2.1, hc2.2⟩)
    · split at h
      · next hc1 =>
        rcases List.mem_append.mp h with h2 | h2
        · exact Or.inl h2
        · exact Or.inr (Or.inl ⟨List.mem_singleton.mp h2, hc1.1, hc1.2⟩)
      · exact Or.inl h

/-- Auxiliary: membership analysis of the marking scan of one occurrence
list. -/
theorem pairMarks_mem (cs : List Clause) (acc : List Nat) (idxs : List Nat)
    (x : Nat) (h : x ∈ pairMarks cs acc idxs) :
    x ∈ acc ∨
      (x ∈ idxs ∧ ∃ j ∈ idxs,
        (cs.getD j []).length < (cs.getD x []).length ∧
        Clause.subsumes (cs.getD j []) (cs.getD x []) = true) := by
  unfold pairMarks at h
  have hstep : ∀ (a : List Nat) (i1 y : Nat),
      y ∈ idxs.foldl (fun a2 i2 => markStep cs a2 i1 i2) a →
      y ∈ a ∨ ((y = i1 ∨ y ∈ idxs) ∧ ∃ j, (j = i1 ∨ j ∈ idxs) ∧
        (cs.getD j []).length < (cs.getD y []).length ∧
        Clause.subsumes (cs.getD j []) (cs.getD y []) = true) := by
    intro a i1 y hy
    have hinner := mem_foldl_step
      (fun a2 i2 => markStep cs a2 i1 i2)
      (fun i2 y =>
        (y = i1 ∧ (cs.getD i2 []).length < (cs.getD i1 []).length ∧
          Clause.subsumes (cs.getD i2 []) (cs.getD i1 []) = true) ∨
        (y = i2 ∧ (cs.getD i1 []).length < (cs.getD i2 []).length ∧
          Clause.subsumes (cs.getD i1 []) (cs.getD i2 []) = true))
      (fun a2 i2 z hz => markStep_mem cs a2 i1 i2 z hz) idxs a y hy
    rcases hinner with h1 | ⟨i2, hi2, hq⟩
    · exact Or.inl h1
    · rcases hq with ⟨hy1, hlen, hsub⟩ | ⟨hy2, hlen, hsub⟩
      · subst hy1
        exact Or.inr ⟨Or.inl rfl, ⟨i2, Or.inr hi2, hlen, hsub⟩⟩
      · subst hy2
        exact Or.inr ⟨Or.inr hi2, ⟨i1, Or.inl rfl, hlen, hsub⟩⟩
  have houter := mem_foldl_step
    (fun a i1 => idxs.foldl (fun a2 i2 => markStep cs a2 i1 i2) a)
    (fun i1 y => (y = i1 ∨ y ∈ idxs) ∧ ∃ j, (j = i1 ∨ j ∈ idxs) ∧
      (cs.getD j []).length < (cs.getD y []).length ∧
      Clause.subsumes (cs.getD j []) (cs.getD y []) = true)
    hstep idxs acc x h
  rcases houter with h1 | ⟨i1, hi1, hx, j, hj, hlen, hsub⟩
  · exact Or.inl h1
  · refine Or.inr ⟨?_, j, ?_, hlen, hsub⟩
    · rcases hx with rfl | hx
      · exact hi1
      · exact hx
    · rcases hj with rfl | hj
      · exact hi1
      · exact hj

/-- C10 as amended: the `Subsumption` pass marks a clause position for
removal only when some strictly shorter clause sharing a literal subsumes
it (equal-length clauses are never tested against each other, so
duplicates never subsume one another — though both copies can be removed
by a shorter third clause, as the counterexample shows). -/
theorem subsumption_marks_only_shorter (pb : Problem) (x : Nat)
    (h : x ∈ subsumptionMarks pb (buildOccurs pb.nbVars pb.clauses)) :
    ∃ j, j < pb.clauses.length ∧
      (pb.clauses.getD j []).length < (pb.clauses.getD x []).length ∧
      Clause.subsumes (pb.clauses.getD j []) (pb.clauses.getD x []) = true ∧
      ∃ l, l ∈ pb.clauses.getD j [] ∧ l ∈ pb.clauses.getD x [] := by
  unfold subsumptionMarks at h
  have hv := buildOccurs_valid pb.nbVars pb.clauses
  have hstep : ∀ (acc : List Nat) (i x : Nat),
      x ∈ (if pb.model.getD i 0 ≠ 0 then acc
           else pairMarks pb.clauses
             (pairMarks pb.clauses acc
               ((buildOccurs pb.nbVars pb.clauses).getD (2 * i) []))
             ((buildOccurs pb.nbVars pb.clauses).getD (2 * i + 1) [])) →
      x ∈ acc ∨ ∃ t, x ∈ (buildOccurs pb.nbVars pb.clauses).getD t [] ∧
        ∃ j ∈ (buildOccurs pb.nbVars pb.clauses).getD t [],
          (pb.clauses.getD j []).length < (pb.clauses.getD x []).length ∧
          Clause.subsumes (pb.clauses.getD j []) (pb.clauses.getD x []) = true := by
    intro acc i y hy
    split at hy
    · exact Or.inl hy
    · rcases pairMarks_mem _ _ _ _ hy with h1 | ⟨hmem, j, hj, hlen, hsub⟩
      · rcases pairMarks_mem _ _ _ _ h1 with h2 | ⟨hmem, j, hj, hlen, hsub⟩
        · exact Or.inl h2
        · exact Or.inr ⟨2 * i, hmem, j, hj, hlen, hsub⟩
      · exact Or.inr ⟨2 * i + 1, hmem, j, hj, hlen, hsub⟩
  have hfold := mem_foldl_step _
    (fun _ y => ∃ t, y ∈ (buildOccurs pb.nbVars pb.clauses).getD t [] ∧
      ∃ j ∈ (buildOccurs pb.nbVars pb.clauses).getD t [],
        (pb.clauses.getD j []).length < (pb.clauses.getD y []).length ∧
        Clause.subsumes (pb.clauses.getD j []) (pb.clauses.getD y []) = true)
    (fun acc i y hy => hstep acc i y hy) (List.range pb.nbVars) [] x h
  rcases hfold with h1 | ⟨_, _, t, hxt, j, hjt, hlen, hsub⟩
  · cases h1
  · obtain ⟨hjlt, htj⟩ := hv t j hjt
    obtain ⟨_, htx⟩ := hv t x hxt
    exact ⟨j, hjlt, hlen, hsub, t, htj, htx⟩

/-- Witness for the amended C10 at a concrete input: position `1` (the
first copy of `(a∨b∨c)`) is marked, and the strictly shorter subsuming
clause sharing a literal exists. -/
theorem subsumption_marks_only_shorter_witness :
    ∃ j, j < inputC10.clauses.length ∧
      (inputC10.clauses.getD j []).length < (inputC10.clauses.getD 1 []).length ∧
      Clause.subsumes (inputC10.clauses.getD j []) (inputC10.clauses.getD 1 []) = true ∧
      ∃ l, l ∈ inputC10.clauses.getD j [] ∧ l ∈ inputC10.clauses.getD 1 [] :=
  subsumption_marks_only_shorter inputC10 1 (by decide)

/-! # Well-formedness of the `Simplify2` output (claim C7) -/

/-- Auxiliary: `getD` after a `set` at a different position is
unchanged. -/
theorem getD_set_ne' {α : Type} (a : List α) (i k : Nat) (x d : α) (h : i ≠ k) :
    (a.set i x).getD k d = a.getD k d := by
  rw [List.getD_eq_getElem?_getD, List.getD_eq_getElem?_getD, List.getElem?_set_ne h]

/-- Auxiliary: when the literal scan of a clause reports no satisfying
literal, the surviving prefix contains only unbound literals, the stored
clause keeps its length, and the surviving count is bounded. -/
theorem scanGo_false (model : List Int) :
    ∀ (gap : Nat) (c : Clause) (j : Nat),
      (∀ k, k < j → model.getD (Lit.var (c.getD k 0)) 0 = 0) →
      (scanGo model c j gap).2.2 = false →
      (scanGo model c j gap).1.length = c.length ∧
        (scanGo model c j gap).2.1 ≤ j + gap ∧
        (∀ k, k < (scanGo model c j gap).2.1 →
          model.getD (Lit.var ((scanGo model c j gap).1.getD k 0)) 0 = 0) := by
  intro gap
  induction gap with
  | zero =>
    intro c j hpre _
    refine ⟨by simp [scanGo], by simp [scanGo], ?_⟩
    intro k hk
    simp only [scanGo] at hk ⊢
    exact hpre k hk
  | succ gap ih =>
    intro c j hpre hfalse
    simp only [scanGo] at hfalse ⊢
    by_cases h0 : model.getD (Lit.var (c.getD j 0)) 0 = 0
    · simp only [if_pos h0] at hfalse ⊢
      have hpre' : ∀ k, k < j + 1 → model.getD (Lit.var (c.getD k 0)) 0 = 0 := by
        intro k hk
        rcases Nat.lt_succ_iff_lt_or_eq.mp hk with hk' | hk'
        · exact hpre k hk'
        · subst hk'; exact h0
      have hih := ih c (j + 1) hpre' hfalse
      refine ⟨hih.1, ?_, hih.2.2⟩
      have h2 := hih.2.1
      omega
    · by_cases h1 : ((model.getD (Lit.var (c.getD j 0)) 0 == 1) ==
          Lit.isPositive (c.getD j 0)) = true
      · simp only [if_neg h0, if_pos h1] at hfalse
        simp at hfalse
      · simp only [if_neg h0, if_neg h1] at hfalse ⊢
        have hpre' : ∀ k, k < j →
            model.getD (Lit.var ((c.set j (c.getD (j + gap) 0)).getD k 0)) 0 = 0 := by
          intro k hk
          rw [getD_set_ne' _ _ _ _ _ (by omega)]
          exact hpre k hk
        have hih := ih _ j hpre' hfalse
        refine ⟨?_, ?_, hih.2.2⟩
        · rw [hih.1, List.length_set]
        · have h2 := hih.2.1
          omega

/-- Auxiliary: the restart flag of `Simplify2`'s sweep is never reset. -/
theorem sweepClauses_flag_mono :
    ∀ (gap : Nat) (pb : Problem) (i : Nat) (p : Problem) (nb : Nat) (r : Bool),
      sweepClauses pb i true gap = .full p nb r → r = true := by
  intro gap
  induction gap with
  | zero => intro pb i p nb r h; cases h; rfl
  | succ gap ih =>
    intro pb i p nb r h
    simp only [sweepClauses] at h
    split at h
    · exact ih _ _ _ _ _ h
    · split at h
      · cases h
      · split at h
        · split at h
          · cases h
          · exact ih _ _ _ _ _ h
        · exact ih _ _ _ _ _ h

/-- Auxiliary: `addUnit` never touches the clause database. -/
theorem addUnit_clauses (pb : Problem) (l : Lit) :
    (addUnit pb l).clauses = pb.clauses := by
  unfold addUnit
  split <;> split <;> rfl

/-- Auxiliary: the sweep preserves the stored length of the clause
database and keeps the active count below its starting bound. -/
theorem sweepClauses_len :
    ∀ (gap : Nat) (pb : Problem) (i : Nat) (restart : Bool) (p : Problem)
      (nb' : Nat) (r' : Bool),
      sweepClauses pb i restart gap = .full p nb' r' →
      p.clauses.length = pb.clauses.length ∧ nb' ≤ i + gap := by
  intro gap
  induction gap with
  | zero =>
    intro pb i restart p nb' r' h
    cases h
    exact ⟨rfl, Nat.le_refl _⟩
  | succ gap ih =>
    intro pb i restart p nb' r' h
    simp only [sweepClauses] at h
    split at h
    · have hih := ih _ _ _ _ _ _ h
      refine ⟨hih.1.trans ?_, by omega⟩
      simp [List.length_set]
    · split at h
      · cases h
      · split at h
        · split at h
          · cases h
          · have hih := ih _ _ _ _ _ _ h
            refine ⟨hih.1.trans ?_, by omega⟩
            show (List.set _ _ _).length = _
            rw [List.length_set, addUnit_clauses, List.length_set]
        · have hih := ih _ _ _ _ _ _ h
          refine ⟨hih.1.trans ?_, by omega⟩
          simp [List.length_set]

/-- Auxiliary: a sweep that starts and ends with a clear restart flag
leaves the model untouched, and every clause of the active range has
length ≥ 2 and only unbound literals. -/
theorem sweepClauses_wf :
    ∀ (gap : Nat) (pb : Problem) (i : Nat) (p : Problem) (nb' : Nat),
      sweepClauses pb i false gap = .full p nb' false →
      i + gap ≤ pb.clauses.length →
      (∀ k, k < i → 2 ≤ (pb.clauses.getD k []).length ∧
        ∀ l ∈ pb.clauses.getD k [], pb.model.getD l.var 0 = 0) →
      p.model = pb.model ∧
        (∀ k, k < nb' → 2 ≤ (p.clauses.getD k []).length ∧
          ∀ l ∈ p.clauses.getD k [], p.model.getD l.var 0 = 0) := by
  intro gap
  induction gap with
  | zero =>
    intro pb i p nb' h _ hinv
    cases h
    exact ⟨rfl, hinv⟩
  | succ gap ih =>
    intro pb i p nb' h hbound hinv
    simp only [sweepClauses] at h
    split at h
    · -- satisfied clause removed by swap-with-last; position i is
      -- re-examined, positions below i are untouched
      have hih := ih _ _ _ _ h
        (by show i + gap ≤ (List.set _ _ _).length
            rw [List.length_set, List.length_set]
            omega)
        (by intro k hk
            have hne : i ≠ k := by omega
            show 2 ≤ ((List.set _ _ _).getD k []).length ∧ _
            simp only [getD_set_ne' _ _ _ _ _ hne]
            exact hinv k hk)
      exact ⟨hih.1.trans rfl, hih.2⟩
    · split at h
      · cases h
      · split at h
        · split at h
          · cases h
          · have hflag := sweepClauses_flag_mono _ _ _ _ _ _ h
            simp at hflag
        · -- kept clause: position i now satisfies the invariant
          rename_i hsat h0 h1
          have hfalse : (scanGo pb.model (pb.clauses.getD i []) 0
              (pb.clauses.getD i []).length).2.2 = false := by
            revert hsat
            cases (scanGo pb.model (pb.clauses.getD i []) 0
                (pb.clauses.getD i []).length).2.2 <;> simp
          have hscan := scanGo_false pb.model (pb.clauses.getD i []).length
            (pb.clauses.getD i []) 0 (by intro kk hkk; omega) hfalse
          have hki : i < pb.clauses.length := by omega
          have hlen2 : 2 ≤ (scanGo pb.model (pb.clauses.getD i []) 0
              (pb.clauses.getD i []).length).2.1 := by omega
          have hih := ih _ _ _ _ h
            (by show i + 1 + gap ≤ (List.set _ _ _).length
                rw [List.length_set]
                omega)
            (by intro k hk
                rcases Nat.lt_succ_iff_lt_or_eq.mp hk with hk2 | hk2
                · have hne : i ≠ k := by omega
                  show 2 ≤ ((List.set _ _ _).getD k []).length ∧ _
                  simp only [getD_set_ne' _ _ _ _ _ hne]
                  exact hinv k hk2
                · subst hk2
                  show 2 ≤ ((List.set _ _ _).getD k []).length ∧ _
                  rw [List.getD_eq_getElem _ _ (by rw [List.length_set]; exact hki),
                    List.getElem_set_self]
                  have hnble : (scanGo pb.model (pb.clauses.getD k []) 0
                      (pb.clauses.getD k []).length).2.1 ≤
                      (scanGo pb.model (pb.clauses.getD k []) 0
                        (pb.clauses.getD k []).length).1.length := by
                    rw [hscan.1]
                    have h2 := hscan.2.1
                    omega
                  constructor
                  · split
                    · rw [List.length_take]
                      omega
                    · next heq =>
                      rw [not_ne_iff] at heq
                      rw [heq]
                      exact hlen2
                  · intro l hl
                    split at hl
                    · rw [List.mem_iff_getElem] at hl
                      obtain ⟨kk, hkk, hlk⟩ := hl
                      rw [List.length_take] at hkk
                      have hkk2 : kk < (scanGo pb.model (pb.clauses.getD k []) 0
                          (pb.clauses.getD k []).length).2.1 := by omega
                      have hkklen : kk < (scanGo pb.model (pb.clauses.getD k []) 0
                          (pb.clauses.getD k []).length).1.length := by omega
                      have hu := hscan.2.2 kk hkk2
                      rw [List.getD_eq_getElem _ _ hkklen] at hu
                      rw [List.getElem_take] at hlk
                      rw [← hlk]
                      exact hu
                    · next heq =>
                      rw [not_ne_iff] at heq
                      rw [List.mem_iff_getElem] at hl
                      obtain ⟨kk, hkk, hlk⟩ := hl
                      have hkk2 : kk < (scanGo pb.model (pb.clauses.getD k []) 0
                          (pb.clauses.getD k []).length).2.1 := by omega
                      have hu := hscan.2.2 kk hkk2
                      rw [List.getD_eq_getElem _ _ hkk] at hu
                      rw [← hlk]
                      exact hu)
          exact ⟨hih.1.trans rfl, hih.2⟩

/-- Auxiliary: a normal completion of the `Simplify2` restart loop whose
result is not `Unsat` yields only clauses of length ≥ 2 with unbound
literals. -/
theorem simplify2Loop_wf :
    ∀ (fuel nb : Nat) (pb s : Problem), nb ≤ pb.clauses.length →
      simplify2Loop nb pb fuel = .ok s → s.status ≠ .unsat →
      ∀ c ∈ s.clauses, 2 ≤ c.length ∧ ∀ l ∈ c, s.model.getD l.var 0 = 0 := by
  intro fuel
  induction fuel with
  | zero => intro nb pb s hnb h hs; simp [simplify2Loop] at h
  | succ fuel ih =>
    intro nb pb s hnb h hs
    simp only [simplify2Loop] at h
    split at h
    · next p hearly =>
      cases h
      exact absurd (sweepClauses_early_unsat _ _ _ _ _ hearly) hs
    · next p nb' restart hfull =>
      split at h
      · have hlen := sweepClauses_len _ _ _ _ _ _ _ hfull
        refine ih _ _ _ ?_ h hs
        rw [hlen.1]
        have h2 := hlen.2
        omega
      · next hres =>
        cases h
        have hresf : restart = false := by
          revert hres
          cases restart <;> simp
        subst hresf
        have hwf := sweepClauses_wf _ _ _ _ _ hfull (by omega)
          (by intro k hk; exact absurd hk (Nat.not_lt_zero k))
        intro c hc
        rw [show (updateStatus p nb').clauses = p.clauses.take nb' from rfl] at hc
        rw [List.mem_iff_getElem] at hc
        obtain ⟨kk, hkk, hck⟩ := hc
        rw [List.length_take] at hkk
        have hkk2 : kk < nb' := by omega
        have hkk3 : kk < p.clauses.length := by omega
        have hp := hwf.2 kk hkk2
        rw [List.getD_eq_getElem _ _ hkk3] at hp
        rw [List.getElem_take] at hck
        rw [← hck]
        refine ⟨hp.1, fun l hl => ?_⟩
        have hu := hp.2 l hl
        exact hu

/-- C7 as amended: when `Preprocess` returns with a status other than
`Unsat`, every clause remaining in the database has length ≥ 2, contains
no literal whose variable is bound, and in particular is not satisfied
under the current assignment (the `Unsat` case genuinely fails, as the
counterexample shows). -/
theorem preprocess_wellformed_output (pb s : Problem) (h : preprocess pb = .ok s)
    (hs : s.status ≠ .unsat) :
    ∀ c ∈ s.clauses, 2 ≤ c.length ∧ (∀ l ∈ c, s.model.getD l.var 0 = 0) ∧
      ¬ ∃ l ∈ c, s.model.getD l.var 0 = (if l.isPositive then 1 else -1) := by
  simp only [preprocess] at h
  split at h
  · next q hq =>
    simp only [subsumption] at h
    unfold simplify2 at h
    have hwf := simplify2Loop_wf _ _ _ _ (Nat.le_refl _) h hs
    intro c hc
    obtain ⟨h2, hunb⟩ := hwf c hc
    refine ⟨h2, hunb, ?_⟩
    rintro ⟨l, hl, hsat⟩
    rw [hunb l hl] at hsat
    split at hsat
    · exact absurd hsat (by decide)
    · exact absurd hsat (by decide)
  · cases h
  · cases h

/-- Witness for the amended C7 at a concrete input: the empty formula
preprocesses to `Status = Sat` with an empty, trivially well-formed
database. -/
theorem preprocess_wellformed_output_witness :
    preprocess inputC7w = .ok outC7w ∧
      (∀ c ∈ outC7w.clauses, 2 ≤ c.length ∧
        (∀ l ∈ c, outC7w.model.getD l.var 0 = 0) ∧
        ¬ ∃ l ∈ c, outC7w.model.getD l.var 0 = (if l.isPositive then 1 else -1)) :=
  ⟨by rfl, preprocess_wellformed_output inputC7w outC7w (by rfl) (by decide)⟩

end Ginipre
